import Mathlib

/-!
Verification of the sssearch retrieval core (services/embedding_service.py,
services/search_service.py, app.py).

The numeric layer models numpy float arithmetic over exact reals, with an
explicit `NpVal` type carrying the IEEE-754 special values (±inf, NaN) that
numpy produces on division by zero: numpy emits a warning but does not raise,
so `calculate_similarity`'s try/except never fires on zero-norm input.

External collaborators (the sentence-transformers model, the MongoDB client)
are modelled as oracle parameters of type `Except`: an `.error` value stands
for the collaborator raising an exception at that call site.
-/

namespace SSSearch

noncomputable section

/-- Value of a numpy float64 cell under exact-real idealization: a finite
real, one of the two infinities, or NaN. -/
inductive NpVal where
  | ninf : NpVal
  | fin : ℝ → NpVal
  | inf : NpVal
  | nan : NpVal

/-- IEEE-754 multiplication on `NpVal` (numpy semantics). -/
def NpVal.mul : NpVal → NpVal → NpVal
  | .nan, _ => .nan
  | .ninf, .nan => .nan
  | .fin _, .nan => .nan
  | .inf, .nan => .nan
  | .fin a, .fin b => .fin (a * b)
  | .fin a, .inf => if a = 0 then .nan else if 0 < a then .inf else .ninf
  | .fin a, .ninf => if a = 0 then .nan else if 0 < a then .ninf else .inf
  | .inf, .fin b => if b = 0 then .nan else if 0 < b then .inf else .ninf
  | .ninf, .fin b => if b = 0 then .nan else if 0 < b then .ninf else .inf
  | .inf, .inf => .inf
  | .inf, .ninf => .ninf
  | .ninf, .inf => .ninf
  | .ninf, .ninf => .inf

/-- IEEE-754 addition on `NpVal` (numpy semantics). -/
def NpVal.add : NpVal → NpVal → NpVal
  | .nan, _ => .nan
  | .ninf, .nan => .nan
  | .fin _, .nan => .nan
  | .inf, .nan => .nan
  | .fin a, .fin b => .fin (a + b)
  | .fin _, .inf => .inf
  | .inf, .fin _ => .inf
  | .fin _, .ninf => .ninf
  | .ninf, .fin _ => .ninf
  | .inf, .inf => .inf
  | .ninf, .ninf => .ninf
  | .inf, .ninf => .nan
  | .ninf, .inf => .nan

/-- IEEE-754 division of two finite reals: `a / 0` is NaN for `a = 0` and
±inf otherwise; ordinary real division when the denominator is nonzero. -/
def npDiv (a b : ℝ) : NpVal :=
  if b = 0 then (if a = 0 then .nan else if 0 < a then .inf else .ninf)
  else .fin (a / b)

/-- Sum of squares of a vector, the radicand inside `np.linalg.norm`. -/
def sumSq (v : List ℝ) : ℝ := v.foldr (fun x s => x * x + s) 0

/-- `np.linalg.norm(v)`: square root of the sum of squares. -/
def npNorm (v : List ℝ) : ℝ := Real.sqrt (sumSq v)

/-- Elementwise division of a vector by its own norm, as in
`query_embedding / np.linalg.norm(query_embedding)` (and the `axis=1`
row-wise analogue for the document matrix). -/
def normalize (v : List ℝ) : List NpVal := v.map fun x => npDiv x (npNorm v)

/-- `np.dot` of two equal-length float vectors: sum of elementwise products,
with NaN propagating through every product and sum. -/
def dot (a b : List NpVal) : NpVal :=
  (List.zipWith NpVal.mul a b).foldr NpVal.add (.fin 0)

/-- `EmbeddingService.calculate_similarity`: normalize the query and each
document row, then dot each normalized row with the normalized query.
When the document matrix is ragged or its row length differs from the query
length, numpy raises (at `np.array` construction or at `np.dot`); the
function's `except` clause catches that and returns `np.array([])`, so the
model returns `[]` exactly when some row length differs from `q.length`. -/
def calculate_similarity (q : List ℝ) (ds : List (List ℝ)) : List NpVal :=
  if ∀ d ∈ ds, d.length = q.length then
    (ds.map normalize).map fun dn => dot dn (normalize q)
  else []

/-- Sort key of one score under numpy's float sort order:
-inf < finite values < +inf < NaN (numpy sorts NaN to the end). -/
def NpVal.key : NpVal → ℕ ×ₗ ℝ
  | .ninf => toLex (0, 0)
  | .fin x => toLex (1, x)
  | .inf => toLex (2, 0)
  | .nan => toLex (3, 0)

/-- Sort key of the score at index `i` of the similarity array. -/
def simKey (sims : List NpVal) (i : ℕ) : ℕ ×ₗ ℝ := (sims.getD i .nan).key

/-- Key used to sort indices: score key first, index as tie-breaker.
Sorting indices by this (total, antisymmetric) key is exactly a stable
ascending argsort of the score array. -/
def rankKey (sims : List NpVal) (i : ℕ) : (ℕ ×ₗ ℝ) ×ₗ ℕ :=
  toLex (simKey sims i, i)

/-- The index ordering realized by `np.argsort`. -/
def argsortRel (sims : List NpVal) (i j : ℕ) : Prop :=
  rankKey sims i ≤ rankKey sims j

instance (sims : List NpVal) : DecidableRel (argsortRel sims) := fun i j =>
  inferInstanceAs (Decidable (rankKey sims i ≤ rankKey sims j))

instance (sims : List NpVal) : IsTotal ℕ (argsortRel sims) :=
  ⟨fun i j => le_total (rankKey sims i) (rankKey sims j)⟩

instance (sims : List NpVal) : IsTrans ℕ (argsortRel sims) :=
  ⟨fun _ _ _ hij hjk => le_trans hij hjk⟩

/-- The full contract `np.argsort` documents for every `kind`: the
returned index list is a permutation of `0, …, n-1` arranged so that the
scores read off in that order ascend (under numpy's float sort order).
The relative order of indices with EQUAL scores is implementation-defined:
the default `kind='quicksort'` is unstable in general and coincides with a
stable insertion sort only below its small-array cutoff.  Universal
theorems about the ranking therefore quantify over every list satisfying
this contract; only concrete small-array computations may use the
executable model below, whose tie order is exact in that regime. -/
def IsArgsortResult (sims : List NpVal) (perm : List ℕ) : Prop :=
  List.Perm perm (List.range sims.length) ∧
  perm.Pairwise fun i j => simKey sims i ≤ simKey sims j

/-- Executable model of `np.argsort(similarities)`: the indices
`0, …, n-1` in ascending order of score.  It satisfies `IsArgsortResult`
(`argsort_isArgsortResult`).  Ties are realized here in ascending index
order — the behaviour of the insertion sort that numpy's default
`kind='quicksort'` falls back to below its ~16-element cutoff, hence exact
for the small concrete arrays evaluated in this file; for larger arrays
numpy guarantees nothing about tie order, so no universal theorem below
relies on this model's tie order. -/
def argsort (sims : List NpVal) : List ℕ :=
  List.insertionSort (argsortRel sims) (List.range sims.length)

/-- `np.argsort(similarities)[::-1][:top_k]`: best-score-first index list
truncated to the first `top_k` entries. -/
def topIndices (sims : List NpVal) (k : ℕ) : List ℕ :=
  (argsort sims).reverse.take k

/-- One stored screenshot document, with the field layout built by
`SearchService.store_screenshot`. -/
structure Doc where
  filename : String
  image_data : String
  ocr_text : String
  visual_description : String
  combined_text : String
  embedding : List ℝ
deriving Inhabited

/-- One search result: the stored document's fields with `embedding`
popped and `score` added (the `doc.copy()` / `doc['score'] = …` /
`doc.pop('embedding')` sequence in both search paths). -/
structure SResult where
  filename : String
  image_data : String
  ocr_text : String
  visual_description : String
  combined_text : String
  score : NpVal

/-- Builds one result dict from a stored document and its score. -/
def mkResult (d : Doc) (s : NpVal) : SResult :=
  ⟨d.filename, d.image_data, d.ocr_text, d.visual_description, d.combined_text, s⟩

/-- The similarity array a search computes over a pool of documents:
`self.embedding_service.calculate_similarity(query_embedding,
np.array([doc['embedding'] for doc in …]))`. -/
def simsOf (qe : List ℝ) (docs : List Doc) : List NpVal :=
  calculate_similarity qe (docs.map Doc.embedding)

/-- The ranking loop common to `_search_local` and `_search_mongodb`:
score every document against the query embedding, then materialize the
documents at `np.argsort(similarities)[::-1][:top_k]`. -/
def rankDocs (qe : List ℝ) (k : ℕ) (docs : List Doc) : List SResult :=
  (topIndices (simsOf qe docs) k).map fun i =>
    mkResult (docs.getD i default) ((simsOf qe docs).getD i .nan)

/-- `SearchService._search_local`: early return `[]` on an empty store,
else rank the in-process pool. -/
def _search_local (qe : List ℝ) (k : ℕ) (local_data : List Doc) : List SResult :=
  if local_data.isEmpty then [] else rankDocs qe k local_data

/-- `SearchService._search_mongodb`: `collection.find` is the oracle
argument; a raised backend error is caught by the function's `except`
clause and becomes `[]`, an empty collection returns `[]`, otherwise the
same ranking loop as the local path runs on the fetched documents. -/
def _search_mongodb (qe : List ℝ) (k : ℕ) (fetch : Except String (List Doc)) :
    List SResult :=
  match fetch with
  | .error _ => []
  | .ok docs => if docs.isEmpty then [] else rankDocs qe k docs

/-- Mutable state of a `SearchService` instance: the degraded-mode flag,
the in-process fallback list, and (as model bookkeeping) the documents
inserted into the MongoDB collection this session. -/
structure StoreState where
  use_local_storage : Bool
  local_data : List Doc
  mongo_data : List Doc
deriving Inhabited

/-- `SearchService._connect_to_mongodb`: no `MONGODB_URI` in the
environment, or a raise from the client-construction try block (the
`conn` oracle), selects the in-process fallback and sets the
`use_local_storage` flag; on success the flag is false and MongoDB is
used.  (`_ensure_vector_index` catches its own errors and cannot raise.) -/
def _connect_to_mongodb (mongo_uri : Option String) (conn : Except String Unit) :
    StoreState :=
  match mongo_uri with
  | none => ⟨true, [], []⟩
  | some _ =>
    match conn with
    | .ok _ => ⟨false, [], []⟩
    | .error _ => ⟨true, [], []⟩

/-- One item of an ingest batch, with the outcomes of its two fallible
side effects as oracles: `emb` is `encode_text(combined_text)` (raises on
model failure) and `insertOutcome` is `collection.insert_one` (raises on
backend write failure; unused by the local path, whose append cannot
fail). -/
structure IngestItem where
  filename : String
  image_data : String
  ocr_text : String
  visual_description : String
  combined_text : String
  emb : Except String (List ℝ)
  insertOutcome : Except String Unit

/-- The document `store_screenshot` builds for an item whose embedding
step succeeded. -/
def itemDoc (it : IngestItem) : Doc :=
  { filename := it.filename
    image_data := it.image_data
    ocr_text := it.ocr_text
    visual_description := it.visual_description
    combined_text := it.combined_text
    embedding := match it.emb with | .ok v => v | .error _ => [] }

/-- Every fallible step of the item succeeds: the embedding call and (for
the MongoDB path) the insert. -/
def itemOk (it : IngestItem) : Prop :=
  (∃ v, it.emb = Except.ok v) ∧ it.insertOutcome = Except.ok ()

instance (it : IngestItem) : Decidable (itemOk it) := by
  unfold itemOk
  rcases it.emb with e | v <;> rcases it.insertOutcome with e2 | u <;>
    simp <;> infer_instance

/-- `SearchService.store_screenshot`: embed the combined text, build the
document, and append it to the active store.  The whole body is inside
`try/except`, so a raise from the embedding step or from `insert_one`
leaves the state unchanged; the local-list append cannot raise. -/
def store_screenshot (it : IngestItem) (st : StoreState) : StoreState :=
  match it.emb with
  | .error _ => st
  | .ok _ =>
    if st.use_local_storage then
      { st with local_data := st.local_data ++ [itemDoc it] }
    else
      match it.insertOutcome with
      | .ok _ => { st with mongo_data := st.mongo_data ++ [itemDoc it] }
      | .error _ => st

/-- The per-item loop of `app.process_screenshots`: each uploaded file is
stored in turn; per-item failures are caught (both in `store_screenshot`
and in the loop's own `try/except`) and the loop continues. -/
def process_screenshots (items : List IngestItem) (st : StoreState) : StoreState :=
  items.foldl (fun s it => store_screenshot it s) st

/-- `SearchService.search`: encode the query (the `enc` oracle models
`encode_query`, which raises on model failure), then dispatch on the
degraded-mode flag; any raise inside the try block is caught and becomes
`[]`. -/
def search (enc : Except String (List ℝ)) (k : ℕ) (st : StoreState)
    (fetch : Except String (List Doc)) : List SResult :=
  match enc with
  | .error _ => []
  | .ok qe =>
    if st.use_local_storage then _search_local qe k st.local_data
    else _search_mongodb qe k fetch

/-- `SearchService.get_total_screenshots`: length of the local list in
degraded mode, else `collection.count_documents({})` (the `cnt` oracle),
with any backend raise caught and turned into `0`. -/
def get_total_screenshots (st : StoreState) (cnt : Except String ℕ) : ℕ :=
  if st.use_local_storage then st.local_data.length
  else match cnt with | .ok n => n | .error _ => 0

/-- State of an `EmbeddingService`: the lazily loaded sentence-transformer
model, as the function it implements (a batch of texts to a matrix of
embeddings), or `none` before the first load. -/
structure EmbSvc where
  model : Option (List String → List (List ℝ))

/-- `EmbeddingService._load_model`: a no-op when the model is present;
otherwise run the loader (the oracle for the `SentenceTransformer`
constructor), re-raising its failure. -/
def _load_model (svc : EmbSvc) (loader : Except String (List String → List (List ℝ))) :
    Except String EmbSvc :=
  match svc.model with
  | some _ => .ok svc
  | none =>
    match loader with
    | .ok m => .ok ⟨some m⟩
    | .error e => .error e

/-- `EmbeddingService.encode_text` on a single string: lazy-load the model
if needed, wrap the string into a one-element batch, and encode it.  The
function's `except` clause re-raises, so failures propagate unchanged. -/
def encode_text (svc : EmbSvc)
    (loader : Except String (List String → List (List ℝ))) (text : String) :
    Except String (List (List ℝ)) :=
  match _load_model svc loader with
  | .error e => .error e
  | .ok s =>
    match s.model with
    | some m => .ok (m [text])
    | none => .ok []

/-- `EmbeddingService.get_embedding_dimension`: when no model is loaded,
return the hard-coded default 384 without touching the model or the
loader; when a model is loaded, embed the probe string `"test"` and
return `test_embedding.shape[1]`, the row length of the resulting
1-row matrix. -/
def get_embedding_dimension (svc : EmbSvc)
    (loader : Except String (List String → List (List ℝ))) : Except String ℕ :=
  match svc.model with
  | none => .ok 384
  | some _ =>
    match encode_text svc loader "test" with
    | .ok embs => .ok (embs.getD 0 []).length
    | .error e => .error e

/-! ### Python dict model for the result-construction steps

`_search_local` builds each result by `doc = self.local_data[idx].copy()`,
then `doc['score'] = …`, then `doc.pop('embedding', None)`.  To state that
the mutations hit only the copy and the stored dicts keep their fields, the
documents are modelled as Python dicts: ordered key/value association lists
with unique keys, with assignment and `pop` implemented as in CPython. -/

/-- A value stored in a screenshot dict: a string field, a float (the
score), or an embedding vector. -/
inductive PyVal where
  | str : String → PyVal
  | num : NpVal → PyVal
  | vec : List ℝ → PyVal

/-- A Python dict as an insertion-ordered association list. -/
abbrev PyDict := List (String × PyVal)

/-- `d[k] = v`: replace the value in place if the key exists (keeping its
position), else append the new key at the end. -/
def dictSet (d : PyDict) (k : String) (v : PyVal) : PyDict :=
  match d with
  | [] => [(k, v)]
  | (k2, v2) :: rest =>
    if k2 = k then (k, v) :: rest else (k2, v2) :: dictSet rest k v

/-- `d.pop(k, None)`: remove the entry for `k` if present, else leave the
dict unchanged. -/
def dictPop (d : PyDict) (k : String) : PyDict :=
  match d with
  | [] => []
  | (k2, v2) :: rest => if k2 = k then rest else (k2, v2) :: dictPop rest k

/-- `d[k]` as a total lookup (`none` when the key is absent). -/
def dictGet (d : PyDict) (k : String) : Option PyVal :=
  match d with
  | [] => none
  | (k2, v2) :: rest => if k2 = k then some v2 else dictGet rest k

/-- The keys of a dict, in order. -/
def dictKeys (d : PyDict) : List String := d.map Prod.fst

/-- `doc['embedding']` as consumed by `np.array([doc['embedding'] for …])`. -/
def getVec (d : PyDict) : List ℝ :=
  match dictGet d "embedding" with
  | some (.vec xs) => xs
  | _ => []

/-- `_search_local` over dict-valued documents, returning both the results
and the store as left behind by the function: each result is built from a
copy of the stored dict (`.copy()` detaches it, so the score assignment and
the `pop` of the embedding act on the copy only), and no statement writes
to `self.local_data`, which is returned unchanged in the second
component. -/
def search_local_dicts (qe : List ℝ) (k : ℕ) (store : List PyDict) :
    List PyDict × List PyDict :=
  if store.isEmpty then ([], store) else
  let sims := calculate_similarity qe (store.map getVec)
  (((topIndices sims k).map fun i =>
      dictPop (dictSet (store.getD i []) "score" (.num (sims.getD i .nan))) "embedding"),
   store)

end

/-! ### Arithmetic helper lemmas -/

theorem NpVal.mul_nan (a : NpVal) : a.mul .nan = .nan := by
  cases a <;> rfl

theorem NpVal.nan_add (b : NpVal) : NpVal.add .nan b = .nan := by
  cases b <;> rfl

theorem sumSq_nonneg (v : List ℝ) : 0 ≤ sumSq v := by
  induction v with
  | nil => simp [sumSq]
  | cons y t ih =>
    have hy : 0 ≤ y * y := mul_self_nonneg y
    simp only [sumSq, List.foldr_cons] at ih ⊢
    linarith

theorem sumSq_eq_zero {v : List ℝ} (h : sumSq v = 0) : ∀ x ∈ v, x = 0 := by
  induction v with
  | nil => simp
  | cons y t ih =>
    have hy : 0 ≤ y * y := mul_self_nonneg y
    have ht : 0 ≤ sumSq t := sumSq_nonneg t
    have hsum : y * y + sumSq t = 0 := by
      simpa [sumSq] using h
    have hy0 : y = 0 := by nlinarith
    have ht0 : sumSq t = 0 := by linarith
    intro x hx
    rcases List.mem_cons.mp hx with hxy | hxt
    · exact hxy.trans hy0
    · exact ih ht0 x hxt

theorem npNorm_nonneg (v : List ℝ) : 0 ≤ npNorm v := Real.sqrt_nonneg _

theorem npNorm_eq_zero {v : List ℝ} (h : npNorm v = 0) : ∀ x ∈ v, x = 0 :=
  sumSq_eq_zero ((Real.sqrt_eq_zero (sumSq_nonneg v)).mp h)

theorem normalize_eq_replicate_nan {v : List ℝ} (hv : npNorm v = 0) :
    normalize v = List.replicate v.length .nan := by
  have hz := npNorm_eq_zero hv
  unfold normalize
  have : v.map (fun x => npDiv x (npNorm v)) = v.map fun _ => NpVal.nan :=
    List.map_congr_left fun x hx => by simp [npDiv, hv, hz x hx]
  rw [this, List.map_const']

theorem dot_nan_head (y : NpVal) (a b : List NpVal) :
    dot (y :: a) (.nan :: b) = .nan := by
  simp [dot, NpVal.mul_nan, NpVal.nan_add]

theorem sumSq_map_mul (c : ℝ) (v : List ℝ) :
    sumSq (v.map fun x => c * x) = c ^ 2 * sumSq v := by
  induction v with
  | nil => simp [sumSq]
  | cons y t ih =>
    simp only [List.map_cons, sumSq, List.foldr_cons] at ih ⊢
    rw [ih]
    ring

theorem npNorm_map_mul {c : ℝ} (hc : 0 ≤ c) (v : List ℝ) :
    npNorm (v.map fun x => c * x) = c * npNorm v := by
  unfold npNorm
  rw [sumSq_map_mul, Real.sqrt_mul (sq_nonneg c), Real.sqrt_sq hc]

theorem normalize_map_mul {c : ℝ} (hc : 0 < c) (v : List ℝ) :
    normalize (v.map fun x => c * x) = normalize v := by
  unfold normalize
  rw [npNorm_map_mul hc.le, List.map_map]
  apply List.map_congr_left
  intro x hx
  by_cases hn : npNorm v = 0
  · have hx0 : x = 0 := npNorm_eq_zero hn x hx
    simp [Function.comp, npDiv, hn, hx0]
  · have hcn : c * npNorm v ≠ 0 := mul_ne_zero hc.ne' hn
    simp [Function.comp, npDiv, hn, hcn, mul_div_mul_left x (npNorm v) hc.ne']

theorem length_calculate_similarity {q : List ℝ} {ds : List (List ℝ)}
    (h : ∀ d ∈ ds, d.length = q.length) :
    (calculate_similarity q ds).length = ds.length := by
  simp [calculate_similarity, if_pos h]

theorem length_calculate_similarity_le (q : List ℝ) (ds : List (List ℝ)) :
    (calculate_similarity q ds).length ≤ ds.length := by
  unfold calculate_similarity
  split
  · simp
  · simp

theorem NpVal.nan_mul (b : NpVal) : NpVal.mul .nan b = .nan := by
  cases b <;> rfl

theorem dot_nan_head2 (y : NpVal) (a b : List NpVal) :
    dot (.nan :: a) (y :: b) = .nan := by
  simp [dot, NpVal.nan_mul, NpVal.nan_add]

theorem length_normalize (v : List ℝ) : (normalize v).length = v.length := by
  simp [normalize]

/-! ### Argsort helper lemmas -/

theorem argsort_perm (sims : List NpVal) :
    List.Perm (argsort sims) (List.range sims.length) :=
  List.perm_insertionSort _ _

theorem length_argsort (sims : List NpVal) : (argsort sims).length = sims.length := by
  simpa using (argsort_perm sims).length_eq

theorem mem_argsort {sims : List NpVal} {i : ℕ} (h : i ∈ argsort sims) :
    i < sims.length := by
  have := (argsort_perm sims).mem_iff.mp h
  simpa using this

theorem argsort_isArgsortResult (sims : List NpVal) :
    IsArgsortResult sims (argsort sims) := by
  refine ⟨argsort_perm sims, ?_⟩
  have h : (argsort sims).Pairwise (argsortRel sims) := List.sorted_insertionSort _ _
  refine h.imp ?_
  intro i j hij
  unfold argsortRel rankKey at hij
  rw [Prod.Lex.le_iff] at hij
  rcases hij with h1 | ⟨h1, _⟩
  · exact le_of_lt h1
  · exact le_of_eq h1

theorem argsortResult_desc {sims : List NpVal} {perm : List ℕ}
    (h : IsArgsortResult sims perm) (k : ℕ) :
    (perm.reverse.take k).Pairwise fun i j => simKey sims j ≤ simKey sims i :=
  (List.pairwise_reverse.mpr h.2).sublist (List.take_sublist k _)

theorem mem_topIndices {sims : List NpVal} {k i : ℕ} (h : i ∈ topIndices sims k) :
    i < sims.length :=
  mem_argsort (List.mem_reverse.mp (List.mem_of_mem_take h))

theorem length_topIndices (sims : List NpVal) (k : ℕ) :
    (topIndices sims k).length = min k sims.length := by
  simp [topIndices, List.length_take, length_argsort]

/-! ### Store and batch helper lemmas -/

theorem store_screenshot_flag (it : IngestItem) (st : StoreState) :
    (store_screenshot it st).use_local_storage = st.use_local_storage := by
  cases hemb : it.emb with
  | error e => simp [store_screenshot, hemb]
  | ok v =>
    cases hins : it.insertOutcome with
    | error e =>
      by_cases hl : st.use_local_storage <;> simp [store_screenshot, hemb, hins, hl]
    | ok u =>
      by_cases hl : st.use_local_storage <;> simp [store_screenshot, hemb, hins, hl]

theorem store_screenshot_local {it : IngestItem} {st : StoreState}
    (hl : st.use_local_storage = true) {v : List ℝ} (hemb : it.emb = .ok v) :
    store_screenshot it st = { st with local_data := st.local_data ++ [itemDoc it] } := by
  simp [store_screenshot, hemb, hl]

theorem store_screenshot_skip {it : IngestItem} {st : StoreState}
    (h : (∃ e, it.emb = .error e) ∨
      ((∃ e, it.insertOutcome = .error e) ∧ st.use_local_storage = false)) :
    store_screenshot it st = st := by
  rcases h with ⟨e, he⟩ | ⟨⟨e, he⟩, hl⟩
  · simp [store_screenshot, he]
  · cases hemb : it.emb with
    | error e2 => simp [store_screenshot, hemb]
    | ok v => simp [store_screenshot, hemb, hl, he]

theorem process_screenshots_append (l1 l2 : List IngestItem) (st : StoreState) :
    process_screenshots (l1 ++ l2) st = process_screenshots l2 (process_screenshots l1 st) := by
  simp [process_screenshots, List.foldl_append]

theorem process_screenshots_flag (items : List IngestItem) (st : StoreState) :
    (process_screenshots items st).use_local_storage = st.use_local_storage := by
  induction items generalizing st with
  | nil => rfl
  | cons it t ih =>
    have h1 : process_screenshots (it :: t) st
        = process_screenshots t (store_screenshot it st) := rfl
    rw [h1, ih, store_screenshot_flag]

theorem process_screenshots_local {items : List IngestItem} {st : StoreState}
    (hl : st.use_local_storage = true)
    (hok : ∀ it ∈ items, ∃ v, it.emb = Except.ok v) :
    process_screenshots items st
      = { st with local_data := st.local_data ++ items.map itemDoc } := by
  induction items generalizing st with
  | nil => simp [process_screenshots]
  | cons it t ih =>
    obtain ⟨v, hv⟩ := hok it (List.mem_cons_self it t)
    have h1 : process_screenshots (it :: t) st
        = process_screenshots t (store_screenshot it st) := rfl
    rw [h1, store_screenshot_local hl hv,
      ih (by simpa using hl) fun it2 h2 => hok it2 (List.mem_cons_of_mem it h2)]
    simp

theorem store_screenshot_mongo {it : IngestItem} {st : StoreState}
    (hl : st.use_local_storage = false) {v : List ℝ} (hemb : it.emb = .ok v)
    (hins : it.insertOutcome = .ok ()) :
    store_screenshot it st = { st with mongo_data := st.mongo_data ++ [itemDoc it] } := by
  simp [store_screenshot, hemb, hl, hins]

theorem process_screenshots_mongo {items : List IngestItem} {st : StoreState}
    (hl : st.use_local_storage = false)
    (hok : ∀ it ∈ items, itemOk it) :
    process_screenshots items st
      = { st with mongo_data := st.mongo_data ++ items.map itemDoc } := by
  induction items generalizing st with
  | nil => simp [process_screenshots]
  | cons it t ih =>
    obtain ⟨⟨v, hv⟩, hins⟩ := hok it (List.mem_cons_self it t)
    have h1 : process_screenshots (it :: t) st
        = process_screenshots t (store_screenshot it st) := rfl
    rw [h1, store_screenshot_mongo hl hv hins,
      ih (by simpa using hl) fun it2 h2 => hok it2 (List.mem_cons_of_mem it h2)]
    simp

/-! ### Python dict helper lemmas -/

theorem mem_dictKeys_dictSet (d : PyDict) (k m : String) (v : PyVal) :
    m ∈ dictKeys (dictSet d k v) ↔ m = k ∨ m ∈ dictKeys d := by
  induction d with
  | nil => simp [dictSet, dictKeys]
  | cons p rest ih =>
    obtain ⟨k2, v2⟩ := p
    by_cases h : k2 = k
    · subst h
      simp [dictSet, dictKeys]
    · simp only [dictSet, if_neg h, dictKeys, List.map_cons, List.mem_cons]
      rw [show (dictSet rest k v).map Prod.fst = dictKeys (dictSet rest k v) from rfl,
        show rest.map Prod.fst = dictKeys rest from rfl, ih]
      tauto

theorem dictKeys_dictSet_nodup {d : PyDict} {k : String} (v : PyVal)
    (h : (dictKeys d).Nodup) : (dictKeys (dictSet d k v)).Nodup := by
  induction d with
  | nil => simp [dictSet, dictKeys]
  | cons p rest ih =>
    obtain ⟨k2, v2⟩ := p
    simp only [dictKeys, List.map_cons, List.nodup_cons] at h
    by_cases hk : k2 = k
    · subst hk
      simpa [dictSet, dictKeys] using h
    · simp only [dictSet, if_neg hk, dictKeys, List.map_cons, List.nodup_cons]
      refine ⟨?_, ih h.2⟩
      rw [show (dictSet rest k v).map Prod.fst = dictKeys (dictSet rest k v) from rfl,
        mem_dictKeys_dictSet]
      rintro (hc | hc)
      · exact hk hc
      · exact h.1 hc

theorem dictGet_eq_none {d : PyDict} {k : String} (h : k ∉ dictKeys d) :
    dictGet d k = none := by
  induction d with
  | nil => rfl
  | cons p rest ih =>
    obtain ⟨k2, v2⟩ := p
    simp only [dictKeys, List.map_cons, List.mem_cons] at h
    push_neg at h
    simp only [dictGet, if_neg fun hc : k2 = k => h.1 hc.symm]
    exact ih h.2

theorem dictGet_dictSet_self (d : PyDict) (k : String) (v : PyVal) :
    dictGet (dictSet d k v) k = some v := by
  induction d with
  | nil => simp [dictSet, dictGet]
  | cons p rest ih =>
    obtain ⟨k2, v2⟩ := p
    by_cases h : k2 = k
    · simp [dictSet, dictGet, h]
    · simp [dictSet, dictGet, h, ih]

theorem dictGet_dictSet_ne (d : PyDict) {k k2 : String} (v : PyVal) (h : k2 ≠ k) :
    dictGet (dictSet d k v) k2 = dictGet d k2 := by
  induction d with
  | nil => simp only [dictSet, dictGet, if_neg fun hc : k = k2 => h hc.symm]
  | cons p rest ih =>
    obtain ⟨k3, v3⟩ := p
    by_cases h3 : k3 = k
    · simp only [dictSet, if_pos h3, dictGet, if_neg fun hc : k = k2 => h hc.symm,
        if_neg fun hc : k3 = k2 => h (h3.symm.trans hc).symm]
    · simp only [dictSet, if_neg h3, dictGet]
      by_cases h4 : k3 = k2
      · simp [h4]
      · simp [h4, ih]

theorem dictGet_dictPop_ne (d : PyDict) {k k2 : String} (h : k2 ≠ k) :
    dictGet (dictPop d k) k2 = dictGet d k2 := by
  induction d with
  | nil => rfl
  | cons p rest ih =>
    obtain ⟨k3, v3⟩ := p
    by_cases h3 : k3 = k
    · simp only [dictPop, if_pos h3, dictGet,
        if_neg fun hc : k3 = k2 => h (hc.symm.trans h3)]
    · simp only [dictPop, if_neg h3, dictGet]
      by_cases h4 : k3 = k2
      · simp [h4]
      · simp [h4, ih]

theorem dictGet_dictPop_self (d : PyDict) (k : String) (h : (dictKeys d).Nodup) :
    dictGet (dictPop d k) k = none := by
  induction d with
  | nil => rfl
  | cons p rest ih =>
    obtain ⟨k2, v2⟩ := p
    simp only [dictKeys, List.map_cons, List.nodup_cons] at h
    by_cases h2 : k2 = k
    · subst h2
      simp only [dictPop, if_pos rfl]
      exact dictGet_eq_none (by
        rw [show rest.map Prod.fst = dictKeys rest from rfl] at h
        exact h.1)
    · simp only [dictPop, if_neg h2, dictGet, if_neg h2]
      exact ih h.2

theorem rankDocs_pairwise (q : List ℝ) (k : ℕ) (docs : List Doc) :
    (rankDocs q k docs).Pairwise fun r s => NpVal.key s.score ≤ NpVal.key r.score := by
  unfold rankDocs
  rw [List.pairwise_map]
  have h2 : (topIndices (simsOf q docs) k).Pairwise
      (fun i j => simKey (simsOf q docs) j ≤ simKey (simsOf q docs) i) :=
    argsortResult_desc (argsort_isArgsortResult (simsOf q docs)) k
  exact h2.imp fun hij => hij

/-! ### Concrete sample data used by witnesses and counterexamples -/

/-- A stored document with a one-dimensional unit embedding. -/
def docA : Doc :=
  ⟨"login.png", "imgA", "login error", "red banner", "login error red banner", [1]⟩

/-- A second document with the same embedding as `docA` (hence always the
same similarity score), fetched after it. -/
def docB : Doc :=
  ⟨"blue.png", "imgB", "blue button", "blue rectangle", "blue button blue rectangle", [1]⟩

/-- An ingest item whose embedding and insert both succeed. -/
def sampleItem : IngestItem :=
  ⟨"shot1.png", "img1", "login error", "red banner", "login error red banner",
    .ok [1], .ok ()⟩

/-- A second all-good ingest item. -/
def sampleItem2 : IngestItem :=
  ⟨"shot3.png", "img3", "checkout success", "green check", "checkout success green check",
    .ok [0, 1], .ok ()⟩

/-- A poisoned ingest item: its embedding step raises. -/
def badItem : IngestItem :=
  ⟨"shot2.png", "img2", "t", "v", "t v", .error "model failure", .ok ()⟩

/-- `docA` as a Python dict, as `store_screenshot` lays it out. -/
def dictA : PyDict :=
  [("filename", .str "login.png"), ("image_data", .str "imgA"),
   ("ocr_text", .str "login error"), ("visual_description", .str "red banner"),
   ("combined_text", .str "login error red banner"), ("embedding", .vec [1])]

/-! ### Claim theorems -/

/-- Claim C4 (confirmed): `search` never raises to its caller.  A raise in
the query-encoding step is caught and yields `[]`; an empty store (whether
the in-process list or the MongoDB collection) yields `[]`; a raise in the
MongoDB fetch is caught and yields `[]`. -/
theorem search_fails_closed (k : ℕ) (st : StoreState)
    (fetch : Except String (List Doc)) (e e2 : String) (qe : List ℝ)
    (ld md : List Doc) :
    search (.error e) k st fetch = [] ∧
    search (.ok qe) k ⟨true, [], md⟩ fetch = [] ∧
    search (.ok qe) k ⟨false, ld, md⟩ (.error e2) = [] ∧
    search (.ok qe) k ⟨false, ld, md⟩ (.ok []) = [] :=
  ⟨rfl, rfl, rfl, rfl⟩

/-- Claim C5 (confirmed): with `MONGODB_URI` absent, or with the connection
attempt raising, the service falls back to the in-process list and the
fallback is observable via `use_local_storage = true` (while a successful
connection leaves it `false`); subsequent inserts in the fallback state land
in `local_data` only, and the count reads only the in-process store. -/
theorem connect_fallback (conn : Except String Unit) (u e : String)
    (it : IngestItem) (v : List ℝ) (hemb : it.emb = .ok v)
    (cnt : Except String ℕ) :
    _connect_to_mongodb none conn = ⟨true, [], []⟩ ∧
    _connect_to_mongodb (some u) (.error e) = ⟨true, [], []⟩ ∧
    (_connect_to_mongodb (some u) (.ok ())).use_local_storage = false ∧
    store_screenshot it ⟨true, [], []⟩ = ⟨true, [itemDoc it], []⟩ ∧
    get_total_screenshots (store_screenshot it ⟨true, [], []⟩) cnt = 1 := by
  have h4 : store_screenshot it ⟨true, [], []⟩ = ⟨true, [itemDoc it], []⟩ := by
    rw [store_screenshot_local rfl hemb]
    rfl
  exact ⟨rfl, rfl, rfl, h4, by rw [h4]; rfl⟩

/-- Witness for C5 at a concrete item. -/
theorem connect_fallback_witness :
    _connect_to_mongodb none (.ok ()) = ⟨true, [], []⟩ ∧
    _connect_to_mongodb (some "mongodb://h") (.error "refused") = ⟨true, [], []⟩ ∧
    (_connect_to_mongodb (some "mongodb://h") (.ok ())).use_local_storage = false ∧
    store_screenshot sampleItem ⟨true, [], []⟩ = ⟨true, [itemDoc sampleItem], []⟩ ∧
    get_total_screenshots (store_screenshot sampleItem ⟨true, [], []⟩) (.error "x") = 1 :=
  connect_fallback (.ok ()) "mongodb://h" "refused" sampleItem [1] rfl (.error "x")

/-- Claim C6 (confirmed): the count never propagates an error — it is `0`
when the backend raises, `0` on an empty store, and after `N` successful
inserts into the fallback store it is exactly `N`. -/
theorem count_fails_soft (items : List IngestItem)
    (hok : ∀ it ∈ items, ∃ v, it.emb = Except.ok v)
    (ld md : List Doc) (e : String) (cnt : Except String ℕ) :
    get_total_screenshots ⟨false, ld, md⟩ (.error e) = 0 ∧
    get_total_screenshots ⟨true, [], []⟩ cnt = 0 ∧
    get_total_screenshots (process_screenshots items ⟨true, [], []⟩) cnt
      = items.length := by
  refine ⟨rfl, rfl, ?_⟩
  rw [process_screenshots_local rfl hok]
  simp [get_total_screenshots]

/-- Witness for C6: two successful inserts give count 2. -/
theorem count_fails_soft_witness :
    get_total_screenshots ⟨false, [], []⟩ (.error "down") = 0 ∧
    get_total_screenshots ⟨true, [], []⟩ (.ok 0) = 0 ∧
    get_total_screenshots
      (process_screenshots [sampleItem, sampleItem2] ⟨true, [], []⟩) (.ok 0) = 2 :=
  count_fails_soft [sampleItem, sampleItem2]
    (by
      intro it hit
      rcases List.mem_cons.mp hit with rfl | hit2
      · exact ⟨[1], rfl⟩
      · rcases List.mem_cons.mp hit2 with rfl | hit3
        · exact ⟨[0, 1], rfl⟩
        · cases hit3)
    [] [] "down" (.ok 0)

/-- Claim C9 (confirmed): in a batch, one item whose embedding step or
storage step raises is absorbed inside the per-item store operation — the
final state is the same as if the item were absent — and all other
(successful) items are still stored, in order, in whichever store is
active. -/
theorem batch_isolation (pre post : List IngestItem) (bad : IngestItem)
    (st : StoreState)
    (hok : ∀ it ∈ pre ++ post, itemOk it)
    (hbad : (∃ e, bad.emb = Except.error e) ∨
      ((∃ e, bad.insertOutcome = Except.error e) ∧ st.use_local_storage = false)) :
    process_screenshots (pre ++ bad :: post) st = process_screenshots (pre ++ post) st ∧
    (st.use_local_storage = true →
      (process_screenshots (pre ++ post) st).local_data
        = st.local_data ++ (pre ++ post).map itemDoc) ∧
    (st.use_local_storage = false →
      (process_screenshots (pre ++ post) st).mongo_data
        = st.mongo_data ++ (pre ++ post).map itemDoc) := by
  refine ⟨?_, ?_, ?_⟩
  · have hmid : store_screenshot bad (process_screenshots pre st)
        = process_screenshots pre st := by
      apply store_screenshot_skip
      rcases hbad with h | ⟨h, hl⟩
      · exact Or.inl h
      · exact Or.inr ⟨h, by rw [process_screenshots_flag]; exact hl⟩
    calc process_screenshots (pre ++ bad :: post) st
        = process_screenshots (bad :: post) (process_screenshots pre st) :=
          process_screenshots_append pre (bad :: post) st
      _ = process_screenshots post (store_screenshot bad (process_screenshots pre st)) :=
          rfl
      _ = process_screenshots post (process_screenshots pre st) := by rw [hmid]
      _ = process_screenshots (pre ++ post) st :=
          (process_screenshots_append pre post st).symm
  · intro hl
    rw [process_screenshots_local hl fun it h => (hok it h).1]
  · intro hl
    rw [process_screenshots_mongo hl hok]

/-- Witness for C9: items 1 and 3 are stored even though item 2's embedding
step raises. -/
theorem batch_isolation_witness :
    process_screenshots [sampleItem, badItem, sampleItem2] ⟨true, [], []⟩
        = process_screenshots [sampleItem, sampleItem2] ⟨true, [], []⟩ ∧
    ((true : Bool) = true →
      (process_screenshots [sampleItem, sampleItem2] (⟨true, [], []⟩ : StoreState)).local_data
        = [] ++ [sampleItem, sampleItem2].map itemDoc) ∧
    ((true : Bool) = false →
      (process_screenshots [sampleItem, sampleItem2] (⟨true, [], []⟩ : StoreState)).mongo_data
        = [] ++ [sampleItem, sampleItem2].map itemDoc) :=
  batch_isolation [sampleItem] [sampleItem2] badItem ⟨true, [], []⟩
    (by
      intro it hit
      rcases List.mem_cons.mp hit with rfl | hit2
      · exact ⟨⟨[1], rfl⟩, rfl⟩
      · rcases List.mem_cons.mp hit2 with rfl | hit3
        · exact ⟨⟨[0, 1], rfl⟩, rfl⟩
        · cases hit3)
    (Or.inl ⟨"model failure", rfl⟩)

/-- Claim C7 counterexample: the code's two cases are the reverse of the
claim's.  With no model loaded, `get_embedding_dimension` returns the
hard-coded 384 even though a probe through the available loader would
report dimension 5; with a model loaded, the result is 7 — the row length
of a live probe embedding of `"test"` — not a stored constant, even though
the claim says no live embedding call happens in that case. -/
theorem get_dim_counterexample :
    get_embedding_dimension ⟨none⟩
        (.ok fun ts => ts.map fun _ => List.replicate 5 0) = .ok 384 ∧
    (encode_text ⟨none⟩ (.ok fun ts => ts.map fun _ => List.replicate 5 0) "test").map
        (fun embs => (embs.getD 0 []).length) = .ok 5 ∧
    get_embedding_dimension ⟨some fun ts => ts.map fun _ => List.replicate 7 0⟩
        (.error "loader never consulted") = .ok 7 ∧
    (384 : ℕ) ≠ 5 ∧ (7 : ℕ) ≠ 384 :=
  ⟨rfl, rfl, rfl, by decide, by decide⟩

/-- Claim C3 (confirmed): whenever `topK` is at least the pool size (and
the pool satisfies the documented invariant that every stored embedding has
the query's dimension), `_search_local` returns exactly pool-size many
results — all available records, no padding, no error. -/
theorem topk_truncation (q : List ℝ) (pool : List Doc) (k : ℕ)
    (hk : pool.length ≤ k)
    (hdim : ∀ d ∈ pool, d.embedding.length = q.length) :
    (_search_local q k pool).length = pool.length := by
  by_cases hp : pool.isEmpty = true
  · rw [_search_local, if_pos hp, List.isEmpty_iff.mp hp]
    rfl
  · rw [_search_local, if_neg hp, rankDocs, List.length_map, length_topIndices]
    have hsims : (simsOf q pool).length = pool.length := by
      rw [simsOf, length_calculate_similarity, List.length_map]
      intro d hd
      obtain ⟨d0, hd0, rfl⟩ := List.mem_map.mp hd
      exact hdim d0 hd0
    rw [hsims, min_eq_right hk]

/-- Witness for C3: pool of size 2 with `topK = 5` yields exactly 2
results. -/
theorem topk_truncation_witness :
    (_search_local [(1 : ℝ)] 5 [docA, docB]).length = 2 := by
  have h := topk_truncation [(1 : ℝ)] [docA, docB] 5 (by decide)
    (by
      intro d hd
      rcases List.mem_cons.mp hd with rfl | hd2
      · rfl
      · rcases List.mem_cons.mp hd2 with rfl | hd3
        · rfl
        · cases hd3)
  simpa using h

/-- Claim C8 (confirmed): under exact arithmetic, `calculate_similarity`
is invariant to positive scalar scaling of the document vector — the
normalization divides the scale out when the norm is nonzero, and a
zero-norm vector stays zero-norm (both sides NaN) under scaling. -/
theorem similarity_scale_invariant (q d : List ℝ) (c : ℝ) (hc : 0 < c) :
    calculate_similarity q [d.map fun x => c * x] = calculate_similarity q [d] := by
  unfold calculate_similarity
  by_cases hlen : d.length = q.length
  · rw [if_pos (by simpa using hlen), if_pos (by simpa using hlen)]
    simp only [List.map_cons, List.map_nil]
    rw [normalize_map_mul hc]
  · rw [if_neg (by simpa using hlen), if_neg (by simpa using hlen)]

/-- Witness for C8: scaling the document `[2]` by 2 leaves the score
unchanged. -/
theorem similarity_scale_invariant_witness :
    calculate_similarity [(1 : ℝ)] [[(2 : ℝ)].map fun x => (2 : ℝ) * x]
      = calculate_similarity [(1 : ℝ)] [[(2 : ℝ)]] :=
  similarity_scale_invariant [(1 : ℝ)] [(2 : ℝ)] 2 (by norm_num)

/-- Claim C1 counterexample: two records with identical embeddings (hence
exactly equal scores) come back in REVERSE fetch order: `docA` is fetched
first, but `np.argsort(similarities)[::-1]` reverses the ascending
argsort — which at this 2-element size is numpy's stable insertion sort,
so the model's tie order is exact here — and the tied `docB` is ranked
first.  The claim's required original-fetch-order tie-breaking is
violated. -/
theorem search_tie_counterexample :
    (_search_local [(1 : ℝ)] 5 [docA, docB]).map SResult.filename
        = [docB.filename, docA.filename] ∧
    (_search_local [(1 : ℝ)] 5 [docA, docB]).map SResult.score = [.fin 1, .fin 1] ∧
    docA.filename ≠ docB.filename := by
  have hone : normalize [(1 : ℝ)] = [.fin 1] := by
    unfold normalize npNorm sumSq
    norm_num [npDiv, Real.sqrt_one]
  have hsims : simsOf [(1 : ℝ)] [docA, docB] = [.fin 1, .fin 1] := by
    unfold simsOf docA docB calculate_similarity
    rw [if_pos (by simp)]
    simp only [List.map_cons, List.map_nil, hone]
    norm_num [dot, NpVal.mul, NpVal.add]
  have hrel : argsortRel [NpVal.fin 1, NpVal.fin 1] 0 1 := by
    unfold argsortRel rankKey
    rw [Prod.Lex.le_iff]
    right
    exact ⟨rfl, by norm_num⟩
  have hsort : argsort [NpVal.fin 1, NpVal.fin 1] = [0, 1] := by
    unfold argsort
    rw [show ([NpVal.fin 1, NpVal.fin 1] : List NpVal).length = 2 from rfl,
      show List.range 2 = [0, 1] from rfl]
    simp only [List.insertionSort, List.orderedInsert]
    rw [if_pos hrel]
  have htop : topIndices [NpVal.fin 1, NpVal.fin 1] 5 = [1, 0] := by
    unfold topIndices
    rw [hsort]
    rfl
  have hres : _search_local [(1 : ℝ)] 5 [docA, docB]
      = [mkResult docB (.fin 1), mkResult docA (.fin 1)] := by
    unfold _search_local
    rw [if_neg (by simp)]
    unfold rankDocs
    rw [hsims, htop]
    rfl
  exact ⟨by rw [hres]; rfl, by rw [hres]; rfl, by decide⟩

/-- Claim C1 amended (proved): `search` does return the pool ranked in
descending score order (under numpy's sort order, where NaN counts as
greatest), in both the local and the MongoDB path, and the third conjunct
proves this for EVERY index list satisfying the documented `np.argsort`
contract — independent of how the sort orders tied scores, which numpy's
default `kind='quicksort'` leaves unspecified for larger arrays.  What the
original claim adds — ties in original fetch order via a stable sort — is
false: the code reverses an ascending argsort, so on the concrete tied
2-record pool of `search_tie_counterexample` (small enough that numpy's
argsort is its stable insertion sort) the tied records come back in
REVERSE fetch order. -/
theorem search_ranking (q : List ℝ) (pool : List Doc) (k : ℕ)
    (fetch : Except String (List Doc)) :
    (_search_local q k pool).Pairwise
      (fun r s => NpVal.key s.score ≤ NpVal.key r.score) ∧
    (_search_mongodb q k fetch).Pairwise
      (fun r s => NpVal.key s.score ≤ NpVal.key r.score) ∧
    (∀ perm, IsArgsortResult (simsOf q pool) perm →
      (perm.reverse.take k).Pairwise fun i j =>
        simKey (simsOf q pool) j ≤ simKey (simsOf q pool) i) := by
  refine ⟨?_, ?_, fun perm h => argsortResult_desc h k⟩
  · unfold _search_local
    by_cases hp : pool.isEmpty = true
    · rw [if_pos hp]
      exact List.Pairwise.nil
    · rw [if_neg hp]
      exact rankDocs_pairwise q k pool
  · rcases fetch with e | docs
    · exact List.Pairwise.nil
    · unfold _search_mongodb
      show List.Pairwise (fun r s => NpVal.key s.score ≤ NpVal.key r.score)
        (if docs.isEmpty = true then [] else rankDocs q k docs)
      by_cases hp : docs.isEmpty = true
      · rw [if_pos hp]
        exact List.Pairwise.nil
      · rw [if_neg hp]
        exact rankDocs_pairwise q k docs

/-- Claim C2 counterexample: a zero-norm query does NOT produce an
empty/zero score result.  numpy's division emits no exception on `0/0`, so
nothing is caught: the score of document `[1]` against query `[0]` is NaN —
a non-empty result that is not a zero score. -/
theorem similarity_zero_norm_counterexample :
    calculate_similarity [(0 : ℝ)] [[(1 : ℝ)]] = [.nan] ∧
    calculate_similarity [(0 : ℝ)] [[(1 : ℝ)]] ≠ [] ∧
    calculate_similarity [(0 : ℝ)] [[(1 : ℝ)]] ≠ [.fin 0] := by
  have hq : normalize [(0 : ℝ)] = [.nan] := by
    unfold normalize npNorm sumSq
    norm_num [npDiv]
  have hd : normalize [(1 : ℝ)] = [.fin 1] := by
    unfold normalize npNorm sumSq
    norm_num [npDiv, Real.sqrt_one]
  have h1 : calculate_similarity [(0 : ℝ)] [[(1 : ℝ)]] = [.nan] := by
    unfold calculate_similarity
    rw [if_pos (by simp)]
    simp only [List.map_cons, List.map_nil, hq, hd]
    simp [dot, NpVal.mul, NpVal.add]
  refine ⟨h1, by rw [h1]; simp, by rw [h1]; simp⟩

/-- Claim C2 amended (proved): `calculate_similarity` never raises, and on
a dimension mismatch the caught numpy error does yield the empty score set;
but a zero-norm (nonempty) vector yields NaN scores, not an empty/zero
result: a zero-norm query makes every score NaN, and a zero-norm document
makes that document's score NaN. -/
theorem similarity_degenerate (q : List ℝ) (ds : List (List ℝ)) (hq : q ≠ []) :
    (¬ (∀ d ∈ ds, d.length = q.length) → calculate_similarity q ds = []) ∧
    (npNorm q = 0 → (∀ d ∈ ds, d.length = q.length) →
      calculate_similarity q ds = List.replicate ds.length .nan) ∧
    ((∀ d ∈ ds, d.length = q.length) → ∀ i, i < ds.length →
      npNorm (ds.getD i []) = 0 →
      (calculate_similarity q ds).getD i (.fin 0) = .nan) := by
  obtain ⟨n, hn⟩ : ∃ n, q.length = n + 1 := by
    cases q with
    | nil => exact absurd rfl hq
    | cons a t => exact ⟨t.length, rfl⟩
  refine ⟨?_, ?_, ?_⟩
  · intro h
    unfold calculate_similarity
    rw [if_neg h]
  · intro hz hdim
    unfold calculate_similarity
    rw [if_pos hdim, List.eq_replicate_iff]
    constructor
    · simp
    · intro b hb
      simp only [List.map_map, List.mem_map, Function.comp] at hb
      obtain ⟨d, hd, rfl⟩ := hb
      have hqn : normalize q = .nan :: List.replicate n .nan := by
        rw [normalize_eq_replicate_nan hz, hn, List.replicate_succ]
      have hdlen : (normalize d).length = n + 1 := by
        rw [length_normalize, hdim d hd, hn]
      obtain ⟨y, rest, hcons⟩ :=
        List.exists_cons_of_ne_nil
          (List.ne_nil_of_length_pos (l := normalize d) (by omega))
      rw [hqn, hcons, dot_nan_head]
  · intro hdim i hi hzi
    have hlen : (calculate_similarity q ds).length = ds.length :=
      length_calculate_similarity hdim
    have hde : ds.getD i [] = ds[i] := List.getD_eq_getElem ds [] hi
    rw [List.getD_eq_getElem _ _ (by omega)]
    unfold calculate_similarity
    rw [hde] at hzi
    have hif : (∀ d ∈ ds, d.length = q.length) := hdim
    simp only [if_pos hif, List.map_map, List.getElem_map, Function.comp]
    have hdn : normalize ds[i] = .nan :: List.replicate n .nan := by
      rw [normalize_eq_replicate_nan hzi, hdim ds[i] (List.getElem_mem hi), hn,
        List.replicate_succ]
    have hqlen : (normalize q).length = n + 1 := by rw [length_normalize, hn]
    obtain ⟨y, rest, hcons⟩ :=
      List.exists_cons_of_ne_nil (List.ne_nil_of_length_pos (l := normalize q) (by omega))
    rw [hdn, hcons, dot_nan_head2]

/-- Witness for C2's amended theorem at query `[0]`, document pool `[[1]]`. -/
theorem similarity_degenerate_witness :
    (¬ (∀ d ∈ [[(1 : ℝ)]], d.length = [(0 : ℝ)].length) →
      calculate_similarity [(0 : ℝ)] [[(1 : ℝ)]] = []) ∧
    (npNorm [(0 : ℝ)] = 0 → (∀ d ∈ [[(1 : ℝ)]], d.length = [(0 : ℝ)].length) →
      calculate_similarity [(0 : ℝ)] [[(1 : ℝ)]] = List.replicate 1 .nan) ∧
    ((∀ d ∈ [[(1 : ℝ)]], d.length = [(0 : ℝ)].length) → ∀ i, i < 1 →
      npNorm ([[(1 : ℝ)]].getD i []) = 0 →
      (calculate_similarity [(0 : ℝ)] [[(1 : ℝ)]]).getD i (.fin 0) = .nan) := by
  have h := similarity_degenerate [(0 : ℝ)] [[(1 : ℝ)]] (by simp)
  simpa using h

/-- Claim C7 amended (proved): `get_embedding_dimension` returns the
hard-coded default 384 — with no probe and no model load — exactly when the
model has NOT yet been loaded; when the model IS loaded it performs a live
probe embedding of `"test"` and returns that embedding's dimension. -/
theorem get_dim_spec (loader : Except String (List String → List (List ℝ)))
    (enc : List String → List (List ℝ)) :
    get_embedding_dimension ⟨none⟩ loader = .ok 384 ∧
    get_embedding_dimension ⟨some enc⟩ loader = .ok ((enc ["test"]).getD 0 []).length :=
  ⟨rfl, rfl⟩

/-- Claim C10 (confirmed): a search never mutates the stored records.  The
store component comes back exactly as it went in, and every returned result
is a copy of some stored dict (at a valid index) with the embedding removed
and the score added on the copy only — every other field reads exactly as
in the stored dict.  (Stated over dicts with unique keys, as Python dicts
have.) -/
theorem search_preserves_store (qe : List ℝ) (k : ℕ) (store : List PyDict)
    (hnd : ∀ d ∈ store, (dictKeys d).Nodup) :
    (search_local_dicts qe k store).2 = store ∧
    ∀ r ∈ (search_local_dicts qe k store).1, ∃ i, i < store.length ∧
      dictGet r "embedding" = none ∧
      dictGet r "score"
        = some (.num ((calculate_similarity qe (store.map getVec)).getD i .nan)) ∧
      ∀ k2 : String, k2 ≠ "embedding" → k2 ≠ "score" →
        dictGet r k2 = dictGet (store.getD i []) k2 := by
  constructor
  · unfold search_local_dicts
    by_cases hp : store.isEmpty = true
    · rw [if_pos hp]
    · rw [if_neg hp]
  · intro r hr
    unfold search_local_dicts at hr
    by_cases hp : store.isEmpty = true
    · rw [if_pos hp] at hr
      cases hr
    · rw [if_neg hp] at hr
      dsimp only at hr
      obtain ⟨i, hi_mem, rfl⟩ := List.mem_map.mp hr
      have hi : i < store.length := by
        have h1 : i < (calculate_similarity qe (store.map getVec)).length :=
          mem_topIndices hi_mem
        have h2 := length_calculate_similarity_le qe (store.map getVec)
        have h3 : (store.map getVec).length = store.length := List.length_map store getVec
        omega
      refine ⟨i, hi, ?_, ?_, ?_⟩
      · apply dictGet_dictPop_self
        apply dictKeys_dictSet_nodup
        apply hnd
        rw [List.getD_eq_getElem store [] hi]
        exact List.getElem_mem hi
      · rw [dictGet_dictPop_ne _ (by decide)]
        exact dictGet_dictSet_self _ _ _
      · intro k2 h2e h2s
        rw [dictGet_dictPop_ne _ h2e, dictGet_dictSet_ne _ _ h2s]

/-- Witness for C10 on a one-document store. -/
theorem search_preserves_store_witness :
    (search_local_dicts [(1 : ℝ)] 3 [dictA]).2 = [dictA] ∧
    ∀ r ∈ (search_local_dicts [(1 : ℝ)] 3 [dictA]).1, ∃ i,
      i < ([dictA] : List PyDict).length ∧
      dictGet r "embedding" = none ∧
      dictGet r "score"
        = some (.num ((calculate_similarity [(1 : ℝ)] ([dictA].map getVec)).getD i .nan)) ∧
      ∀ k2 : String, k2 ≠ "embedding" → k2 ≠ "score" →
        dictGet r k2 = dictGet (([dictA] : List PyDict).getD i []) k2 :=
  search_preserves_store [(1 : ℝ)] 3 [dictA] (by
    intro d hd
    rcases List.mem_cons.mp hd with rfl | h2
    · decide
    · cases h2)

end SSSearch
